import Mathlib

/-!
Verification development for the sales time-series analysis pipeline
(`Sales_Analysis.py`): a multi-resolution aggregate → decompose → report
pipeline.  Values are modelled as exact rationals (`ℚ`), timestamps as
natural numbers on the aggregation grid.

The Python source delegates aggregation to `pandas.resample(...).sum()`,
decomposition to `statsmodels.tsa.seasonal.seasonal_decompose`, and sorting
to `pandas.Series.sort_values`; those library internals are modelled from the
specification.  Everything else (slicing, gating thresholds, title-based
branch dispatch, pipeline sequencing) is embedded directly from the source.
-/

namespace SalesAnalysis

/-! ## ExtremesFinder (`identify_low_high_sales`, source lines 38–43) -/

/-- Modelled from the spec: `pandas.Series.sort_values()` (library code, not
in the source tree) — value-ascending stable sort.  Insertion sort is stable:
equal values keep their original relative order. -/
def sort_values (s : List ℚ) : List ℚ :=
  List.insertionSort (· ≤ ·) s

/-- `int(len(sorted_series) * threshold)` from the source: the slice count,
truncating toward zero (equal to the floor for the nonnegative products that
occur here). -/
def sliceCount (s : List ℚ) (threshold : ℚ) : ℕ :=
  (⌊(s.length : ℚ) * threshold⌋).toNat

/-- `identify_low_high_sales` from the source:
`sorted = series.sort_values(); low = sorted[:k]; high = sorted[-k:]` with
`k = int(len(sorted) * threshold)`.  Python slice semantics: `sorted[:k]` is
`take k`; `sorted[-k:]` is the last `k` elements when `k > 0`, but the WHOLE
series when `k = 0` (since `sorted[-0:] = sorted[0:]`). -/
def identify_low_high_sales (s : List ℚ) (threshold : ℚ) : List ℚ × List ℚ :=
  ((sort_values s).take (sliceCount s threshold),
   if sliceCount s threshold = 0 then sort_values s
   else (sort_values s).drop ((sort_values s).length - sliceCount s threshold))

/-- A concrete 100-point observed series used to instantiate theorems. -/
def l100 : List ℚ := (List.range 100).map Nat.cast

/-! ## Decomposer (`decompose_series`, source lines 31–35)

Modelled from the spec: the classical decomposition performed by
`statsmodels.tsa.seasonal.seasonal_decompose` (library code, not in the
source tree) under the additive model — centered moving-average trend
(double-averaged for even period), per-position seasonal indices normalized
to sum to zero, residual = observed − trend − seasonal, with trend and
residual absent for the first and last `period/2` points. -/

/-- Sum of `cnt` consecutive series values starting at index `start`. -/
def windowSum (s : List ℚ) (start cnt : ℕ) : ℚ :=
  ((List.range cnt).map (fun j => s.getD (start + j) 0)).sum

/-- Centered moving average of window size `p` at index `i`: for even `p` a
2×p double-averaging (half weight on the two endpoints of a `p+1`-wide
window), for odd `p` a single centered window of size `p`.  `none` at the
half-period edges. -/
def trendAt (s : List ℚ) (p i : ℕ) : Option ℚ :=
  if p / 2 ≤ i ∧ i + p / 2 < s.length then
    if p % 2 = 0 then
      some ((s.getD (i - p / 2) 0 / 2 + windowSum s (i - p / 2 + 1) (p - 1)
        + s.getD (i + p / 2) 0 / 2) / p)
    else some (windowSum s (i - p / 2) p / p)
  else none

/-- Arithmetic mean of a list of rationals (`0` for the empty list). -/
def mean (l : List ℚ) : ℚ := l.sum / l.length

/-- Detrended values (`observed - trend`) of the positions congruent to `r`
modulo the period whose trend is defined. -/
def groupVals (s : List ℚ) (p r : ℕ) : List ℚ :=
  ((List.range s.length).filter
      (fun i => i % p == r && (trendAt s p i).isSome)).map
    (fun i => s.getD i 0 - (trendAt s p i).getD 0)

/-- Raw per-position seasonal index: mean of the detrended values at the
position. -/
def rawSeasonal (s : List ℚ) (p r : ℕ) : ℚ := mean (groupVals s p r)

/-- Mean of the `p` raw seasonal indices (subtracted so the normalized
indices sum to zero — the additive normalization). -/
def seasonalMean (s : List ℚ) (p : ℕ) : ℚ :=
  mean ((List.range p).map (rawSeasonal s p))

/-- Normalized seasonal component at index `i`, tiled with period `p`. -/
def seasonalAt (s : List ℚ) (p i : ℕ) : ℚ :=
  rawSeasonal s p (i % p) - seasonalMean s p

/-- Residual at index `i`: `observed − trend − seasonal`, absent where the
trend is absent. -/
def residAt (s : List ℚ) (p i : ℕ) : Option ℚ :=
  (trendAt s p i).map (fun t => s.getD i 0 - t - seasonalAt s p i)

/-- Four parallel component series over the same index range: `observed`,
`trend`, `seasonal`, `resid`; absent trend/residual points are `none`. -/
structure DecompositionResult where
  observed : List ℚ
  trend : List (Option ℚ)
  seasonal : List ℚ
  resid : List (Option ℚ)
deriving DecidableEq

/-- `decompose_series(series, model='additive', period)`: requires
`period ≥ 2` and `len(series) ≥ 2*period`, otherwise the library raises
(`InsufficientDataError` in the spec's taxonomy), modelled as `none`. -/
def decompose_series (s : List ℚ) (p : ℕ) : Option DecompositionResult :=
  if 2 ≤ p ∧ 2 * p ≤ s.length then
    some ⟨s, (List.range s.length).map (trendAt s p),
      (List.range s.length).map (seasonalAt s p),
      (List.range s.length).map (residAt s p)⟩
  else none

/-! ## Aggregator (`resample_data`, source lines 24–28)

Modelled from the spec: `pandas.DataFrame.resample(freq).sum()` (library
code, not in the source tree) — fixed-width bucketing by summation over a
regular grid from the first to the last occupied bucket, empty buckets
filled with sum `0`; fails (`InvalidIndexError`) when the input timestamps
are not strictly increasing (non-monotonic or duplicated). -/

/-- Bucketing by summation: bucket id of a point at time `t` is `t / w`;
output is one `(bucketId, sum)` pair per bucket from the least to the
greatest occupied bucket, in ascending order. -/
def resample (s : List (ℕ × ℚ)) (w : ℕ) : List (ℕ × ℚ) :=
  match s with
  | [] => []
  | x :: xs =>
      let lo := (xs.map (fun q => q.1 / w)).foldl min (x.1 / w)
      let hi := (xs.map (fun q => q.1 / w)).foldl max (x.1 / w)
      (List.range (hi + 1 - lo)).map
        (fun j => (lo + j,
          (((x :: xs).filter (fun q => q.1 / w == lo + j)).map Prod.snd).sum))

/-- `true` iff the timestamp list is strictly increasing (time-ordered with
no duplicates). -/
def strictlyIncreasing : List ℕ → Bool
  | [] => true
  | [_] => true
  | a :: b :: rest => a < b && strictlyIncreasing (b :: rest)

/-- `resample_data` from the source: validates the index, then resamples;
`none` models the `InvalidIndexError` failure on a non-monotonic or
duplicated index (library-side validation, modelled from the spec). -/
def resample_data (s : List (ℕ × ℚ)) (w : ℕ) : Option (List (ℕ × ℚ)) :=
  if strictlyIncreasing (s.map Prod.fst) then some (resample s w) else none

/-! ## InsightGenerator (`print_decomposition`, source lines 83–130) -/

/-- The five insight branches of the `if/elif` chain. -/
inductive Branch where
  | hourly
  | daily
  | weekly
  | monthly
  | seasonal
deriving DecidableEq

/-- `pat` occurs as a contiguous substring of `s` (character lists). -/
def containsSub : List Char → List Char → Bool
  | pat, [] => pat.isEmpty
  | pat, c :: rest => pat.isPrefixOf (c :: rest) || containsSub pat rest

/-- Python's `pat in title` substring test. -/
def strContains (title pat : String) : Bool :=
  containsSub pat.toList title.toList

/-- The branch selected by the source's free-text `if/elif` chain
(`'Hourly Analysis' in title`, then `'Daily Analysis' in title`, …). -/
def insightBranch (title : String) : Option Branch :=
  if strContains title "Hourly Analysis" then some Branch.hourly
  else if strContains title "Daily Analysis" then some Branch.daily
  else if strContains title "Weekly Analysis" then some Branch.weekly
  else if strContains title "Monthly Analysis" then some Branch.monthly
  else if strContains title "Seasonal Analysis" then some Branch.seasonal
  else none

/-- `Series.dropna()` on an optional series, keeping the original index
labels: the `(index, value)` pairs of the defined entries. -/
def dropna (l : List (Option ℚ)) : List (ℕ × ℚ) :=
  l.enum.filterMap (fun q => q.2.map (fun v => (q.1, v)))

/-- `Series.idxmax()`: index label of the first occurrence of the maximum
value (`none` on an empty series). -/
def idxmaxP (l : List (ℕ × ℚ)) : Option ℕ :=
  match l with
  | [] => none
  | x :: rest =>
      some ((rest.foldl (fun best y => if best.2 < y.2 then y else best) x).1)

/-- `Series.idxmin()`: index label of the first occurrence of the minimum
value (`none` on an empty series). -/
def idxminP (l : List (ℕ × ℚ)) : Option ℕ :=
  match l with
  | [] => none
  | x :: rest =>
      some ((rest.foldl (fun best y => if y.2 < best.2 then y else best) x).1)

/-- The `(peak, low)` pair narrated by `print_decomposition` for a given
title, following the source's `if/elif` chain: the Hourly/Daily/Weekly/
Monthly branches take `trend.dropna().idxmax()/idxmin()`, the Seasonal
branch takes `seasonal.idxmax()/idxmin()` (the seasonal component has no
absent points, so its `dropna()` is itself); `none` when no branch
matches. -/
def reportExtrema (d : DecompositionResult) (title : String) :
    Option (Option ℕ × Option ℕ) :=
  if strContains title "Hourly Analysis" then
    some (idxmaxP (dropna d.trend), idxminP (dropna d.trend))
  else if strContains title "Daily Analysis" then
    some (idxmaxP (dropna d.trend), idxminP (dropna d.trend))
  else if strContains title "Weekly Analysis" then
    some (idxmaxP (dropna d.trend), idxminP (dropna d.trend))
  else if strContains title "Monthly Analysis" then
    some (idxmaxP (dropna d.trend), idxminP (dropna d.trend))
  else if strContains title "Seasonal Analysis" then
    some (idxmaxP d.seasonal.enum, idxminP d.seasonal.enum)
  else none

/-- The `(peak, low)` pair the spec prescribes per resolution tag: trend
extrema for Hourly/Daily/Weekly/Monthly, seasonal extrema for Seasonal. -/
def extremaSpec (d : DecompositionResult) (b : Branch) :
    Option ℕ × Option ℕ :=
  match b with
  | Branch.seasonal => (idxmaxP d.seasonal.enum, idxminP d.seasonal.enum)
  | _ => (idxmaxP (dropna d.trend), idxminP (dropna d.trend))

/-! ## ResolutionPipeline (`analyze_data`, source lines 135–181) -/

/-- Outcome of one resolution pass: the insufficient-data sentinel, a
decomposition-precondition failure (the `InsufficientDataError` branch), or
a real decomposition handed to `print_decomposition` with its title. -/
inductive Summary where
  | insufficient
  | decompFailure
  | report (d : DecompositionResult) (title : String)
deriving DecidableEq

/-- One gate-then-decompose pass: `if len(data) >= minB:
decompose_series(data, period=p); print_decomposition(result, title)
else: "Not enough data"`. -/
def step (s : List ℚ) (minB p : ℕ) (title : String) : Summary :=
  if minB ≤ s.length then
    match decompose_series s p with
    | some d => Summary.report d title
    | none => Summary.decompFailure
  else Summary.insufficient

/-- `analyze_data`, parameterized by the already-aggregated hourly, daily,
weekly and monthly series: the five passes in source order, the Seasonal
pass reusing the monthly aggregation with the same period 12. -/
def analyze_data (hourly daily weekly monthly : List ℚ) : List Summary :=
  [step hourly 48 24 "Hourly Analysis",
   step daily 14 7 "Daily Analysis",
   step weekly 8 4 "Weekly Analysis",
   step monthly 24 12 "Monthly Analysis",
   step monthly 24 12 "Seasonal Analysis"]

/-- The five named resolutions. -/
inductive Resolution where
  | hourly
  | daily
  | weekly
  | monthly
  | seasonal
deriving DecidableEq

/-- Minimum bucket count gating each resolution (source literals 48, 14, 8,
24, 24). -/
def minBuckets : Resolution → ℕ
  | Resolution.hourly => 48
  | Resolution.daily => 14
  | Resolution.weekly => 8
  | Resolution.monthly => 24
  | Resolution.seasonal => 24

/-- Decomposition period of each resolution (source literals 24, 7, 4, 12,
12). -/
def periodOf : Resolution → ℕ
  | Resolution.hourly => 24
  | Resolution.daily => 7
  | Resolution.weekly => 4
  | Resolution.monthly => 12
  | Resolution.seasonal => 12

/-! ## Helper lemmas -/

lemma sort_values_perm (s : List ℚ) : (sort_values s).Perm s :=
  List.perm_insertionSort _ s

lemma sort_values_sorted (s : List ℚ) : List.Sorted (· ≤ ·) (sort_values s) :=
  List.sorted_insertionSort _ s

lemma length_sort_values (s : List ℚ) : (sort_values s).length = s.length :=
  (sort_values_perm s).length_eq

lemma sliceCount_le_length (s : List ℚ) (th : ℚ) (h2 : th ≤ 1 / 2) :
    sliceCount s th ≤ s.length := by
  unfold sliceCount
  have hle : (s.length : ℚ) * th ≤ (s.length : ℚ) := by
    nlinarith [Nat.cast_nonneg (α := ℚ) s.length]
  have hfloor : ⌊(s.length : ℚ) * th⌋ ≤ (s.length : ℤ) := by
    calc ⌊(s.length : ℚ) * th⌋ ≤ ⌊(s.length : ℚ)⌋ := Int.floor_le_floor hle
      _ = (s.length : ℤ) := Int.floor_natCast _
  omega

lemma sliceCount_eq_zero (s : List ℚ) (th : ℚ) (h0 : 0 < th)
    (hn : (s.length : ℚ) < 1 / th) : sliceCount s th = 0 := by
  unfold sliceCount
  have hlt : (s.length : ℚ) * th < 1 := by
    calc (s.length : ℚ) * th < (1 / th) * th := mul_lt_mul_of_pos_right hn h0
      _ = 1 := by field_simp
  have hge : (0 : ℚ) ≤ (s.length : ℚ) * th := by positivity
  have : ⌊(s.length : ℚ) * th⌋ = 0 := by
    apply Int.floor_eq_zero_iff.mpr
    constructor <;> simp_all [Set.mem_Ico]
  omega

/-! ## ExtremesFinder theorems (claims C5, C6, C10) -/

/-- C5 (amended): when `k = int(n * threshold) ≥ 1`, `identify_low_high_sales`
returns `low` = first `k` and `high` = last `k` points of the value-ascending
stable sort of the series, each of length exactly `k`; the sorted list is a
permutation of the input and is sorted.  (The claim's universal form fails at
`k = 0`, where the high slice is the whole series — see the counterexample.) -/
theorem extremes_slices_spec (s : List ℚ) (th : ℚ) (h0 : 0 < th) (h2 : th ≤ 1 / 2)
    (hk : 1 ≤ sliceCount s th) :
    identify_low_high_sales s th =
      ((sort_values s).take (sliceCount s th),
       (sort_values s).drop (s.length - sliceCount s th)) ∧
    (identify_low_high_sales s th).1.length = sliceCount s th ∧
    (identify_low_high_sales s th).2.length = sliceCount s th ∧
    (sort_values s).Perm s ∧ List.Sorted (· ≤ ·) (sort_values s) := by
  have hkn : sliceCount s th ≤ s.length := sliceCount_le_length s th h2
  have hlen := length_sort_values s
  have hne : sliceCount s th ≠ 0 := by omega
  refine ⟨?_, ?_, ?_, sort_values_perm s, sort_values_sorted s⟩
  · simp [identify_low_high_sales, hne, hlen]
  · simp only [identify_low_high_sales, hne, if_false, List.length_take, hlen]
    omega
  · simp only [identify_low_high_sales, hne, if_false, List.length_drop, hlen]
    omega

/-- C5 witness: for the 100-point series and threshold `0.25`, the low and high
slices each contain exactly 25 points. -/
theorem extremes_slices_spec_witness :
    (identify_low_high_sales l100 (1 / 4)).1.length = 25 ∧
    (identify_low_high_sales l100 (1 / 4)).2.length = 25 := by
  have hlen100 : l100.length = 100 := by
    simp only [l100, List.length_map, List.length_range]
  have hc : sliceCount l100 (1 / 4) = 25 := by
    unfold sliceCount
    rw [hlen100]
    norm_num
    decide
  have h := extremes_slices_spec l100 (1 / 4) (by norm_num) (by norm_num)
    (by rw [hc]; omega)
  exact ⟨by rw [h.2.1, hc], by rw [h.2.2.1, hc]⟩

/-- C5 counterexample: for `n = 3`, `threshold = 0.25` the slice count is `0`,
yet the high slice is the entire 3-point series (Python `sorted[-0:]` is the
whole list), so it is NOT the last `floor(threshold*n) = 0` points. -/
theorem extremes_highSlice_counterexample :
    sliceCount [1, 2, 3] (1 / 4) = 0 ∧
    (identify_low_high_sales [1, 2, 3] (1 / 4)).2 = [1, 2, 3] ∧
    (identify_low_high_sales [1, 2, 3] (1 / 4)).2.length ≠
      sliceCount [1, 2, 3] (1 / 4) := by
  have hc : sliceCount ([1, 2, 3] : List ℚ) (1 / 4) = 0 := by
    norm_num [sliceCount]
  refine ⟨hc, ?_, ?_⟩
  · simp only [identify_low_high_sales, hc]
    decide
  · simp only [identify_low_high_sales, hc]
    decide

/-- C6 (amended): for a series with `1 ≤ n < 1/threshold` the LOW slice is
empty (not nonempty, as claimed) while the high slice is the entire
value-sorted series of length `n`; for `n = 0` both slices are empty. -/
theorem extremes_small_series (s : List ℚ) (th : ℚ) (h0 : 0 < th) :
    (1 ≤ s.length → (s.length : ℚ) < 1 / th →
      (identify_low_high_sales s th).1 = [] ∧
      (identify_low_high_sales s th).2 = sort_values s ∧
      (identify_low_high_sales s th).2.length = s.length) ∧
    (s.length = 0 →
      (identify_low_high_sales s th).1 = [] ∧
      (identify_low_high_sales s th).2 = []) := by
  constructor
  · intro h1 hn
    have hz := sliceCount_eq_zero s th h0 hn
    exact ⟨by simp [identify_low_high_sales, hz],
      by simp [identify_low_high_sales, hz],
      by simp [identify_low_high_sales, hz, length_sort_values]⟩
  · intro h1
    have hs : s = [] := List.length_eq_zero.mp h1
    subst hs
    simp [identify_low_high_sales, sort_values, sliceCount]

/-- C6 witness: instantiation at the two-point series `[3, 7]` with
threshold `0.25`. -/
theorem extremes_small_series_witness :
    (identify_low_high_sales [3, 7] (1 / 4)).1 = [] ∧
    (identify_low_high_sales [3, 7] (1 / 4)).2 = sort_values [3, 7] := by
  have h := extremes_small_series ([3, 7] : List ℚ) (1 / 4) (by norm_num)
  exact ⟨(h.1 (by decide) (by norm_num)).1, (h.1 (by decide) (by norm_num)).2.1⟩

/-- C6 counterexample: `n = 2`, `threshold = 0.25` satisfies
`1 ≤ n < 1/threshold`, yet the low slice is empty — the claim's "at least one
point in each slice" fails for the low slice. -/
theorem extremes_lowSlice_counterexample :
    1 ≤ ([3, 7] : List ℚ).length ∧
    ((([3, 7] : List ℚ).length : ℚ) < 1 / (1 / 4)) ∧
    (identify_low_high_sales [3, 7] (1 / 4)).1 = [] := by
  have hc : sliceCount ([3, 7] : List ℚ) (1 / 4) = 0 := by
    norm_num [sliceCount]
  refine ⟨by decide, by norm_num, ?_⟩
  simp only [identify_low_high_sales, hc]
  decide

/-- C10: for a nonempty series whose slice count `int(threshold*n)` is `0`,
the low slice is empty and the high slice is the whole value-sorted series, so
the slice lengths sum to `n`. -/
theorem lowHigh_zeroCount (s : List ℚ) (th : ℚ) (h1 : 1 ≤ s.length)
    (hk : sliceCount s th = 0) :
    (identify_low_high_sales s th).1 = [] ∧
    (identify_low_high_sales s th).2 = sort_values s ∧
    (identify_low_high_sales s th).1.length +
      (identify_low_high_sales s th).2.length = s.length := by
  refine ⟨?_, ?_, ?_⟩ <;> simp [identify_low_high_sales, hk, length_sort_values]

/-- C10 witness: instantiation at the one-point series `[5]` with
threshold `0.25`. -/
theorem lowHigh_zeroCount_witness :
    (identify_low_high_sales [(5 : ℚ)] (1 / 4)).1 = [] ∧
    (identify_low_high_sales [(5 : ℚ)] (1 / 4)).2 = sort_values [(5 : ℚ)] ∧
    (identify_low_high_sales [(5 : ℚ)] (1 / 4)).1.length +
      (identify_low_high_sales [(5 : ℚ)] (1 / 4)).2.length =
      [(5 : ℚ)].length :=
  lowHigh_zeroCount [(5 : ℚ)] (1 / 4) (by decide) (by norm_num [sliceCount])

/-! ## Decomposer theorems (claim C1) -/

lemma getD_map_range {α : Type} (f : ℕ → α) (n i : ℕ) (d : α) :
    ((List.range n).map f).getD i d = if i < n then f i else d := by
  by_cases h : i < n
  · simp [List.getD_eq_getElem?_getD, List.getElem?_map, List.getElem?_range, h]
  · simp [List.getD_eq_getElem?_getD, List.getElem?_map, h,
      List.getElem?_eq_none
        (by simpa using Nat.le_of_not_lt h : (List.range n).length ≤ i)]

/-- C1: under the Decomposer precondition (`period ≥ 2`,
`len(series) ≥ 2*period`) the additive decomposition satisfies, at every
index where the trend is defined, `observed = trend + seasonal + residual`
exactly (hence within every positive epsilon); trend and residual are absent
at the first and last `period/2` indices. -/
theorem decompose_additive_invariant (s : List ℚ) (p : ℕ) (hp : 2 ≤ p)
    (hn : 2 * p ≤ s.length) :
    ∃ dd, decompose_series s p = some dd ∧
      (∀ i t, dd.trend.getD i none = some t →
        ∃ r, dd.resid.getD i none = some r ∧
          s.getD i 0 = t + dd.seasonal.getD i 0 + r) ∧
      (∀ i, i < p / 2 →
        dd.trend.getD i none = none ∧ dd.resid.getD i none = none) ∧
      (∀ i, s.length - p / 2 ≤ i →
        dd.trend.getD i none = none ∧ dd.resid.getD i none = none) := by
  unfold decompose_series
  rw [if_pos ⟨hp, hn⟩]
  refine ⟨_, rfl, ?_, ?_, ?_⟩
  · intro i t ht
    rw [getD_map_range] at ht
    by_cases hi : i < s.length
    · rw [if_pos hi] at ht
      have hseas : ((List.range s.length).map (seasonalAt s p)).getD i 0
          = seasonalAt s p i := by rw [getD_map_range, if_pos hi]
      have hres : ((List.range s.length).map (residAt s p)).getD i none
          = residAt s p i := by rw [getD_map_range, if_pos hi]
      refine ⟨s.getD i 0 - t - seasonalAt s p i, ?_, ?_⟩
      · rw [hres, residAt, ht]
        rfl
      · rw [hseas]
        ring
    · rw [if_neg hi] at ht
      exact absurd ht (by simp)
  · intro i hi
    have hc : ¬(p / 2 ≤ i ∧ i + p / 2 < s.length) := by omega
    constructor <;> rw [getD_map_range] <;> split <;>
      simp [trendAt, residAt, hc]
  · intro i hi
    have hc : ¬(p / 2 ≤ i ∧ i + p / 2 < s.length) := by omega
    constructor <;> rw [getD_map_range] <;> split <;>
      simp [trendAt, residAt, hc]

/-- C1 witness: instantiation at the four-point series `[1, 2, 3, 4]` with
period 2. -/
theorem decompose_additive_invariant_witness :
    ∃ dd, decompose_series [(1 : ℚ), 2, 3, 4] 2 = some dd ∧
      (∀ i t, dd.trend.getD i none = some t →
        ∃ r, dd.resid.getD i none = some r ∧
          ([(1 : ℚ), 2, 3, 4].getD i 0 = t + dd.seasonal.getD i 0 + r)) ∧
      (∀ i, i < 2 / 2 →
        dd.trend.getD i none = none ∧ dd.resid.getD i none = none) ∧
      (∀ i, [(1 : ℚ), 2, 3, 4].length - 2 / 2 ≤ i →
        dd.trend.getD i none = none ∧ dd.resid.getD i none = none) :=
  decompose_additive_invariant [(1 : ℚ), 2, 3, 4] 2 (by decide) (by decide)

/-! ## ResolutionPipeline theorems (claims C2, C4, C9) -/

lemma step_report (s : List ℚ) (minB p : ℕ) (title : String)
    (hg : minB ≤ s.length) (hp : 2 ≤ p ∧ 2 * p ≤ s.length) :
    step s minB p title = Summary.report
      ⟨s, (List.range s.length).map (trendAt s p),
        (List.range s.length).map (seasonalAt s p),
        (List.range s.length).map (residAt s p)⟩ title := by
  unfold step decompose_series
  rw [if_pos hg, if_pos hp]

lemma reportExtrema_title_monthly (dd : DecompositionResult) :
    reportExtrema dd "Monthly Analysis" =
      some (idxmaxP (dropna dd.trend), idxminP (dropna dd.trend)) := by
  unfold reportExtrema
  rw [if_neg (by decide), if_neg (by decide), if_neg (by decide),
    if_pos (by decide)]

lemma reportExtrema_title_seasonal (dd : DecompositionResult) :
    reportExtrema dd "Seasonal Analysis" =
      some (idxmaxP dd.seasonal.enum, idxminP dd.seasonal.enum) := by
  unfold reportExtrema
  rw [if_neg (by decide), if_neg (by decide), if_neg (by decide),
    if_neg (by decide), if_pos (by decide)]

/-- C2: whenever a resolution's bucket-count gate passes, the Decomposer
precondition `2 ≤ period ∧ len ≥ 2*period` holds for that resolution's fixed
period, the decomposition succeeds (so the `InsufficientDataError` branch is
unreachable), the gate-then-decompose step produces a real report, and
`analyze_data` is exactly the five such steps with these gate/period
constants. -/
theorem gate_implies_precondition (r : Resolution) (s : List ℚ)
    (hgate : minBuckets r ≤ s.length) :
    (2 ≤ periodOf r ∧ 2 * periodOf r ≤ s.length) ∧
    (decompose_series s (periodOf r)).isSome = true ∧
    (∀ title, step s (minBuckets r) (periodOf r) title ≠ Summary.decompFailure ∧
      step s (minBuckets r) (periodOf r) title ≠ Summary.insufficient) ∧
    (∀ hourly daily weekly monthly : List ℚ,
      analyze_data hourly daily weekly monthly =
        [step hourly (minBuckets Resolution.hourly) (periodOf Resolution.hourly)
           "Hourly Analysis",
         step daily (minBuckets Resolution.daily) (periodOf Resolution.daily)
           "Daily Analysis",
         step weekly (minBuckets Resolution.weekly) (periodOf Resolution.weekly)
           "Weekly Analysis",
         step monthly (minBuckets Resolution.monthly)
           (periodOf Resolution.monthly) "Monthly Analysis",
         step monthly (minBuckets Resolution.seasonal)
           (periodOf Resolution.seasonal) "Seasonal Analysis"]) := by
  have hpre : 2 ≤ periodOf r ∧ 2 * periodOf r ≤ s.length := by
    cases r <;> simp only [periodOf, minBuckets] at hgate ⊢ <;> omega
  refine ⟨hpre, ?_, ?_, ?_⟩
  · unfold decompose_series
    rw [if_pos hpre]
    rfl
  · intro title
    unfold step decompose_series
    rw [if_pos hgate, if_pos hpre]
    exact ⟨by simp, by simp⟩
  · intro hourly daily weekly monthly
    rfl

/-- C2 witness: the Daily resolution at a 14-bucket series. -/
theorem gate_implies_precondition_witness :
    (2 ≤ periodOf Resolution.daily ∧
      2 * periodOf Resolution.daily ≤ (List.replicate 14 (0 : ℚ)).length) ∧
    (decompose_series (List.replicate 14 (0 : ℚ))
      (periodOf Resolution.daily)).isSome = true ∧
    (∀ title, step (List.replicate 14 (0 : ℚ)) (minBuckets Resolution.daily)
        (periodOf Resolution.daily) title ≠ Summary.decompFailure ∧
      step (List.replicate 14 (0 : ℚ)) (minBuckets Resolution.daily)
        (periodOf Resolution.daily) title ≠ Summary.insufficient) ∧
    (∀ hourly daily weekly monthly : List ℚ,
      analyze_data hourly daily weekly monthly =
        [step hourly (minBuckets Resolution.hourly) (periodOf Resolution.hourly)
           "Hourly Analysis",
         step daily (minBuckets Resolution.daily) (periodOf Resolution.daily)
           "Daily Analysis",
         step weekly (minBuckets Resolution.weekly) (periodOf Resolution.weekly)
           "Weekly Analysis",
         step monthly (minBuckets Resolution.monthly)
           (periodOf Resolution.monthly) "Monthly Analysis",
         step monthly (minBuckets Resolution.seasonal)
           (periodOf Resolution.seasonal) "Seasonal Analysis"]) :=
  gate_implies_precondition Resolution.daily (List.replicate 14 0) (by decide)

/-- C4: with 13 daily buckets the Daily resolution's entry is the
insufficient-data sentinel; with 14 it is a real decomposition report; and
the Daily entry does not depend on the other resolutions' aggregations. -/
theorem daily_gate_boundary (h d dp w m hh ww mm : List ℚ)
    (h13 : d.length = 13) (h14 : dp.length = 14) :
    (analyze_data h d w m).getD 1 Summary.insufficient = Summary.insufficient ∧
    (∃ dec, (analyze_data h dp w m).getD 1 Summary.insufficient =
      Summary.report dec "Daily Analysis") ∧
    (analyze_data h d w m).getD 1 Summary.insufficient =
      (analyze_data hh d ww mm).getD 1 Summary.insufficient := by
  refine ⟨?_, ?_, rfl⟩
  · have e : (analyze_data h d w m).getD 1 Summary.insufficient
        = step d 14 7 "Daily Analysis" := rfl
    rw [e]
    unfold step
    rw [if_neg (by omega)]
  · have e : (analyze_data h dp w m).getD 1 Summary.insufficient
        = step dp 14 7 "Daily Analysis" := rfl
    rw [e]
    unfold step decompose_series
    rw [if_pos (by omega), if_pos (⟨by omega, by omega⟩ : 2 ≤ 7 ∧ 2 * 7 ≤ dp.length)]
    exact ⟨_, rfl⟩

/-- C4 witness: instantiation at 13- and 14-bucket daily series. -/
theorem daily_gate_boundary_witness :
    (analyze_data [] (List.replicate 13 (0 : ℚ)) [] []).getD 1
      Summary.insufficient = Summary.insufficient ∧
    (∃ dec, (analyze_data [] (List.replicate 14 (0 : ℚ)) [] []).getD 1
      Summary.insufficient = Summary.report dec "Daily Analysis") ∧
    (analyze_data [] (List.replicate 13 (0 : ℚ)) [] []).getD 1
        Summary.insufficient =
      (analyze_data [(1 : ℚ)] (List.replicate 13 (0 : ℚ)) [(2 : ℚ)]
        [(3 : ℚ)]).getD 1 Summary.insufficient :=
  daily_gate_boundary [] (List.replicate 13 0) (List.replicate 14 0) [] []
    [(1 : ℚ)] [(2 : ℚ)] [(3 : ℚ)] (by decide) (by decide)

/-- C9: when the Monthly gate passes, the Monthly and Seasonal passes carry
the SAME `DecompositionResult` (same monthly aggregation, same period 12,
same model), and their reports differ only in the narrated extrema: the
Monthly report narrates the trend extrema, the Seasonal report the seasonal
extrema. -/
theorem seasonal_reuses_monthly (h d w m : List ℚ) (hm : 24 ≤ m.length) :
    ∃ dec, (analyze_data h d w m).getD 3 Summary.insufficient =
        Summary.report dec "Monthly Analysis" ∧
      (analyze_data h d w m).getD 4 Summary.insufficient =
        Summary.report dec "Seasonal Analysis" ∧
      reportExtrema dec "Monthly Analysis" =
        some (idxmaxP (dropna dec.trend), idxminP (dropna dec.trend)) ∧
      reportExtrema dec "Seasonal Analysis" =
        some (idxmaxP dec.seasonal.enum, idxminP dec.seasonal.enum) := by
  have e3 : (analyze_data h d w m).getD 3 Summary.insufficient
      = step m 24 12 "Monthly Analysis" := rfl
  have e4 : (analyze_data h d w m).getD 4 Summary.insufficient
      = step m 24 12 "Seasonal Analysis" := rfl
  rw [e3, e4, step_report m 24 12 "Monthly Analysis" hm ⟨by omega, by omega⟩,
    step_report m 24 12 "Seasonal Analysis" hm ⟨by omega, by omega⟩]
  exact ⟨_, rfl, rfl, reportExtrema_title_monthly _, reportExtrema_title_seasonal _⟩

/-- C9 witness: instantiation at a 24-bucket monthly aggregation. -/
theorem seasonal_reuses_monthly_witness :
    ∃ dec, (analyze_data [] [] [] (List.replicate 24 (0 : ℚ))).getD 3
        Summary.insufficient = Summary.report dec "Monthly Analysis" ∧
      (analyze_data [] [] [] (List.replicate 24 (0 : ℚ))).getD 4
        Summary.insufficient = Summary.report dec "Seasonal Analysis" ∧
      reportExtrema dec "Monthly Analysis" =
        some (idxmaxP (dropna dec.trend), idxminP (dropna dec.trend)) ∧
      reportExtrema dec "Seasonal Analysis" =
        some (idxmaxP dec.seasonal.enum, idxminP dec.seasonal.enum) :=
  seasonal_reuses_monthly [] [] [] (List.replicate 24 0) (by decide)

/-! ## InsightGenerator theorems (claim C3) -/

lemma foldlMax_spec (rest : List (ℕ × ℚ)) (x : ℕ × ℚ) :
    (rest.foldl (fun best y => if best.2 < y.2 then y else best) x) ∈ x :: rest ∧
    x.2 ≤ (rest.foldl (fun best y => if best.2 < y.2 then y else best) x).2 ∧
    ∀ q ∈ rest,
      q.2 ≤ (rest.foldl (fun best y => if best.2 < y.2 then y else best) x).2 := by
  induction rest generalizing x with
  | nil => exact ⟨List.mem_cons_self _ _, le_refl _, by simp⟩
  | cons y ys ih =>
    simp only [List.foldl_cons]
    rcases ih (if x.2 < y.2 then y else x) with ⟨hmem, hle, hall⟩
    have hstep : x.2 ≤ (if x.2 < y.2 then y else x).2 := by
      by_cases hxy : x.2 < y.2 <;> simp [hxy]
      exact le_of_lt hxy
    have hystep : y.2 ≤ (if x.2 < y.2 then y else x).2 := by
      by_cases hxy : x.2 < y.2 <;> simp [hxy]
      exact le_of_not_lt hxy
    refine ⟨?_, le_trans hstep hle, ?_⟩
    · rcases List.mem_cons.mp hmem with h | h
      · rw [h]
        by_cases hxy : x.2 < y.2 <;> simp [hxy, List.mem_cons]
      · exact List.mem_cons.mpr (Or.inr (List.mem_cons.mpr (Or.inr h)))
    · intro q hq
      rcases List.mem_cons.mp hq with h | h
      · rw [h]
        exact le_trans hystep hle
      · exact hall q h

lemma foldlMin_spec (rest : List (ℕ × ℚ)) (x : ℕ × ℚ) :
    (rest.foldl (fun best y => if y.2 < best.2 then y else best) x) ∈ x :: rest ∧
    (rest.foldl (fun best y => if y.2 < best.2 then y else best) x).2 ≤ x.2 ∧
    ∀ q ∈ rest,
      (rest.foldl (fun best y => if y.2 < best.2 then y else best) x).2 ≤ q.2 := by
  induction rest generalizing x with
  | nil => exact ⟨List.mem_cons_self _ _, le_refl _, by simp⟩
  | cons y ys ih =>
    simp only [List.foldl_cons]
    rcases ih (if y.2 < x.2 then y else x) with ⟨hmem, hle, hall⟩
    have hstep : (if y.2 < x.2 then y else x).2 ≤ x.2 := by
      by_cases hxy : y.2 < x.2 <;> simp [hxy]
      exact le_of_lt hxy
    have hystep : (if y.2 < x.2 then y else x).2 ≤ y.2 := by
      by_cases hxy : y.2 < x.2 <;> simp [hxy]
      exact le_of_not_lt hxy
    refine ⟨?_, le_trans hle hstep, ?_⟩
    · rcases List.mem_cons.mp hmem with h | h
      · rw [h]
        by_cases hxy : y.2 < x.2 <;> simp [hxy, List.mem_cons]
      · exact List.mem_cons.mpr (Or.inr (List.mem_cons.mpr (Or.inr h)))
    · intro q hq
      rcases List.mem_cons.mp hq with h | h
      · rw [h]
        exact le_trans hle hystep
      · exact hall q h

lemma idxmaxP_spec (l : List (ℕ × ℚ)) (k : ℕ) (h : idxmaxP l = some k) :
    ∃ v, (k, v) ∈ l ∧ ∀ q ∈ l, q.2 ≤ v := by
  match l with
  | [] => simp [idxmaxP] at h
  | x :: rest =>
    simp only [idxmaxP, Option.some_inj] at h
    obtain ⟨hmem, hle, hall⟩ := foldlMax_spec rest x
    refine ⟨(rest.foldl (fun best y => if best.2 < y.2 then y else best) x).2,
      ?_, ?_⟩
    · rw [← h]
      simpa using hmem
    · intro q hq
      rcases List.mem_cons.mp hq with hx | hr
      · rw [hx]
        exact hle
      · exact hall q hr

lemma idxminP_spec (l : List (ℕ × ℚ)) (k : ℕ) (h : idxminP l = some k) :
    ∃ v, (k, v) ∈ l ∧ ∀ q ∈ l, v ≤ q.2 := by
  match l with
  | [] => simp [idxminP] at h
  | x :: rest =>
    simp only [idxminP, Option.some_inj] at h
    obtain ⟨hmem, hle, hall⟩ := foldlMin_spec rest x
    refine ⟨(rest.foldl (fun best y => if y.2 < best.2 then y else best) x).2,
      ?_, ?_⟩
    · rw [← h]
      simpa using hmem
    · intro q hq
      rcases List.mem_cons.mp hq with hx | hr
      · rw [hx]
        exact hle
      · exact hall q hr

/-- C3 counterexample: the branch is NOT selected purely by the resolution
tag — the source substring-matches the free-text title, checking
`'Hourly Analysis'` first, so a title mentioning Seasonal first still routes
to the Hourly branch, and a decorated non-canonical title selects a branch
too. -/
theorem insight_branch_counterexample :
    insightBranch "Seasonal Analysis vs Hourly Analysis" = some Branch.hourly ∧
    "Seasonal Analysis vs Hourly Analysis" ≠ "Hourly Analysis" ∧
    insightBranch "Revised Daily Analysis" = some Branch.daily ∧
    "Revised Daily Analysis" ≠ "Daily Analysis" := by
  refine ⟨?_, by decide, ?_, by decide⟩
  · unfold insightBranch
    rw [if_pos (by decide)]
  · unfold insightBranch
    rw [if_neg (by decide), if_pos (by decide)]

/-- C3 (amended): the insight branch is selected by free-text substring
matching on the title (checked in the order Hourly, Daily, Weekly, Monthly,
Seasonal), which on the five canonical pipeline titles coincides with the
resolution tag; whichever branch is selected, the narrated `(peak, low)` pair
is the trend argmax/argmin for Hourly/Daily/Weekly/Monthly and the seasonal
argmax/argmin for Seasonal, where `idxmax`/`idxmin` return an index holding a
maximal/minimal value. -/
theorem insight_branching (dd : DecompositionResult) (t : String) (b : Branch)
    (hb : insightBranch t = some b) :
    reportExtrema dd t = some (extremaSpec dd b) ∧
    (insightBranch "Hourly Analysis" = some Branch.hourly ∧
     insightBranch "Daily Analysis" = some Branch.daily ∧
     insightBranch "Weekly Analysis" = some Branch.weekly ∧
     insightBranch "Monthly Analysis" = some Branch.monthly ∧
     insightBranch "Seasonal Analysis" = some Branch.seasonal) ∧
    (∀ l k, idxmaxP l = some k → ∃ v, (k, v) ∈ l ∧ ∀ q ∈ l, q.2 ≤ v) ∧
    (∀ l k, idxminP l = some k → ∃ v, (k, v) ∈ l ∧ ∀ q ∈ l, v ≤ q.2) := by
  refine ⟨?_, ⟨by decide, by decide, by decide, by decide, by decide⟩,
    idxmaxP_spec, idxminP_spec⟩
  unfold insightBranch at hb
  unfold reportExtrema
  split_ifs at hb ⊢ <;> cases hb <;> rfl

/-- C3 witness: instantiation at an empty decomposition result, the Monthly
title, and a one-point series for the extrema lemmas. -/
theorem insight_branching_witness :
    reportExtrema ⟨[], [], [], []⟩ "Monthly Analysis" =
      some (extremaSpec ⟨[], [], [], []⟩ Branch.monthly) ∧
    (∃ v, ((0 : ℕ), v) ∈ [((0 : ℕ), (5 : ℚ))] ∧
      ∀ q ∈ [((0 : ℕ), (5 : ℚ))], q.2 ≤ v) ∧
    (∃ v, ((0 : ℕ), v) ∈ [((0 : ℕ), (5 : ℚ))] ∧
      ∀ q ∈ [((0 : ℕ), (5 : ℚ))], v ≤ q.2) := by
  have h := insight_branching ⟨[], [], [], []⟩ "Monthly Analysis"
    Branch.monthly (by decide)
  exact ⟨h.1, h.2.2.1 [((0 : ℕ), (5 : ℚ))] 0 (by decide),
    h.2.2.2 [((0 : ℕ), (5 : ℚ))] 0 (by decide)⟩

/-! ## Aggregator theorems (claims C7, C8) -/

lemma foldl_min_le_init (l : List ℕ) (b : ℕ) : l.foldl min b ≤ b := by
  induction l generalizing b with
  | nil => exact le_refl b
  | cons a t ih =>
    simp only [List.foldl_cons]
    exact le_trans (ih (min b a)) (min_le_left b a)

lemma foldl_min_le_mem (l : List ℕ) (b y : ℕ) (hy : y ∈ l) :
    l.foldl min b ≤ y := by
  induction l generalizing b with
  | nil => cases hy
  | cons a t ih =>
    simp only [List.foldl_cons]
    rcases List.mem_cons.mp hy with h | h
    · rw [h]
      exact le_trans (foldl_min_le_init t (min b a)) (min_le_right b a)
    · exact ih (min b a) h

lemma le_foldl_max_init (l : List ℕ) (b : ℕ) : b ≤ l.foldl max b := by
  induction l generalizing b with
  | nil => exact le_refl b
  | cons a t ih =>
    simp only [List.foldl_cons]
    exact le_trans (le_max_left b a) (ih (max b a))

lemma le_foldl_max_mem (l : List ℕ) (b y : ℕ) (hy : y ∈ l) :
    y ≤ l.foldl max b := by
  induction l generalizing b with
  | nil => cases hy
  | cons a t ih =>
    simp only [List.foldl_cons]
    rcases List.mem_cons.mp hy with h | h
    · rw [h]
      exact le_trans (le_max_right b a) (le_foldl_max_init t (max b a))
    · exact ih (max b a) h

lemma sum_map_add (L : List ℕ) (f g : ℕ → ℚ) :
    (L.map (fun b => f b + g b)).sum = (L.map f).sum + (L.map g).sum := by
  induction L with
  | nil => simp
  | cons a t ih =>
    simp only [List.map_cons, List.sum_cons, ih]
    ring

lemma sum_map_ite_notMem (L : List ℕ) (k : ℕ) (c : ℚ) (hk : k ∉ L) :
    (L.map (fun b => if k = b then c else 0)).sum = 0 := by
  induction L with
  | nil => simp
  | cons a t ih =>
    have hka : k ≠ a := fun h => hk (h ▸ List.mem_cons_self a t)
    have hkt : k ∉ t := fun h => hk (List.mem_cons.mpr (Or.inr h))
    simp [hka, ih hkt]

lemma sum_map_ite_mem (L : List ℕ) (k : ℕ) (c : ℚ) (hnd : L.Nodup)
    (hk : k ∈ L) : (L.map (fun b => if k = b then c else 0)).sum = c := by
  induction L with
  | nil => cases hk
  | cons a t ih =>
    rcases List.mem_cons.mp hk with h | h
    · subst h
      have hkt : k ∉ t := (List.nodup_cons.mp hnd).1
      simp [sum_map_ite_notMem t k c hkt]
    · have hka : k ≠ a := by
        rintro rfl
        exact (List.nodup_cons.mp hnd).1 h
      simp [hka, ih (List.nodup_cons.mp hnd).2 h]

lemma sum_buckets (w : ℕ) (L : List ℕ) (hnd : L.Nodup) :
    ∀ s : List (ℕ × ℚ), (∀ q ∈ s, q.1 / w ∈ L) →
      (L.map (fun b => ((s.filter (fun q => q.1 / w == b)).map Prod.snd).sum)).sum
        = (s.map Prod.snd).sum := by
  intro s
  induction s with
  | nil =>
    intro _
    simp
  | cons q s ih =>
    intro hcov
    have hpoint : ∀ b : ℕ,
        (((q :: s).filter (fun q2 => q2.1 / w == b)).map Prod.snd).sum
          = (if q.1 / w = b then q.2 else 0)
            + ((s.filter (fun q2 => q2.1 / w == b)).map Prod.snd).sum := by
      intro b
      by_cases h : q.1 / w = b
      · simp [List.filter_cons, h]
      · simp [List.filter_cons, h]
    calc (L.map (fun b =>
            (((q :: s).filter (fun q2 => q2.1 / w == b)).map Prod.snd).sum)).sum
        = (L.map (fun b => (if q.1 / w = b then q.2 else 0)
            + ((s.filter (fun q2 => q2.1 / w == b)).map Prod.snd).sum)).sum := by
          rw [List.map_congr_left (fun b _ => hpoint b)]
      _ = (L.map (fun b => if q.1 / w = b then q.2 else 0)).sum
            + (L.map (fun b =>
                ((s.filter (fun q2 => q2.1 / w == b)).map Prod.snd).sum)).sum :=
          sum_map_add L _ _
      _ = q.2 + (s.map Prod.snd).sum := by
          rw [sum_map_ite_mem L (q.1 / w) q.2 hnd
              (hcov q (List.mem_cons_self q s)),
            ih (fun q2 h2 => hcov q2 (List.mem_cons.mpr (Or.inr h2)))]
      _ = ((q :: s).map Prod.snd).sum := by simp

/-- C7: bucketed aggregation conserves the total — the sum of the resampled
series' values equals the sum of the input series' values (the output grid
spans every occupied bucket, so no bucket falls outside the input's span). -/
theorem resample_conserves_sum (s : List (ℕ × ℚ)) (w : ℕ) (hw : 0 < w) :
    ((resample s w).map Prod.snd).sum = (s.map Prod.snd).sum := by
  match s with
  | [] => rfl
  | x :: xs =>
    unfold resample
    have hlo := foldl_min_le_init (xs.map (fun q => q.1 / w)) (x.1 / w)
    have hhi := le_foldl_max_init (xs.map (fun q => q.1 / w)) (x.1 / w)
    set lo := (xs.map (fun q => q.1 / w)).foldl min (x.1 / w) with hlodef
    set hi := (xs.map (fun q => q.1 / w)).foldl max (x.1 / w) with hhidef
    rw [List.map_map]
    have hre : (List.range (hi + 1 - lo)).map
        ((fun q : ℕ × ℚ => q.2) ∘ fun j => (lo + j,
          (((x :: xs).filter (fun q => q.1 / w == lo + j)).map Prod.snd).sum))
        = ((List.range (hi + 1 - lo)).map (fun j => lo + j)).map
            (fun b => (((x :: xs).filter (fun q => q.1 / w == b)).map
              Prod.snd).sum) := by
      rw [List.map_map]
      rfl
    rw [hre]
    apply sum_buckets w _ ?_ (x :: xs) ?_
    · exact (List.nodup_range _).map (fun a b h => by omega)
    · intro q hq
      have hql : lo ≤ q.1 / w := by
        rcases List.mem_cons.mp hq with h | h
        · rw [h]
          exact hlo
        · exact foldl_min_le_mem _ _ _ (List.mem_map.mpr ⟨q, h, rfl⟩)
      have hqh : q.1 / w ≤ hi := by
        rcases List.mem_cons.mp hq with h | h
        · rw [h]
          exact hhi
        · exact le_foldl_max_mem _ _ _ (List.mem_map.mpr ⟨q, h, rfl⟩)
      exact List.mem_map.mpr ⟨q.1 / w - lo,
        List.mem_range.mpr (by omega), by omega⟩

/-- C7 witness: a two-point series with bucket width 2 (an empty middle
bucket appears; the totals agree). -/
theorem resample_conserves_sum_witness :
    ((resample [((0 : ℕ), (3 : ℚ)), ((5 : ℕ), (4 : ℚ))] 2).map Prod.snd).sum
      = ([((0 : ℕ), (3 : ℚ)), ((5 : ℕ), (4 : ℚ))].map Prod.snd).sum :=
  resample_conserves_sum [((0 : ℕ), (3 : ℚ)), ((5 : ℕ), (4 : ℚ))] 2 (by decide)

lemma strictlyIncreasing_iff (l : List ℕ) :
    strictlyIncreasing l = true ↔ List.Chain' (· < ·) l := by
  induction l with
  | nil => simp [strictlyIncreasing]
  | cons a t ih =>
    cases t with
    | nil => simp [strictlyIncreasing]
    | cons b t2 =>
      simp [strictlyIncreasing, Bool.and_eq_true, decide_eq_true_eq,
        List.chain'_cons, ih]

/-- C8: the Aggregator fails (`InvalidIndexError`, modelled as `none`) if and
only if the input's timestamps are not strictly increasing — i.e. the series
is not time-ordered or contains duplicate timestamps; on every strictly
time-ordered, duplicate-free input it succeeds. -/
theorem aggregator_error_iff (s : List (ℕ × ℚ)) (w : ℕ) :
    ((resample_data s w).isSome = true ↔
      List.Chain' (· < ·) (s.map Prod.fst)) ∧
    (List.Chain' (· < ·) (s.map Prod.fst) →
      resample_data s w = some (resample s w)) := by
  unfold resample_data
  constructor
  · rw [← strictlyIncreasing_iff]
    by_cases h : strictlyIncreasing (s.map Prod.fst) <;> simp [h]
  · intro hc
    rw [if_pos ((strictlyIncreasing_iff _).mpr hc)]

/-- C8 witness: a strictly time-ordered, duplicate-free two-point input, on
which the Aggregator succeeds. -/
theorem aggregator_error_iff_witness :
    (resample_data [((0 : ℕ), (3 : ℚ)), ((1 : ℕ), (4 : ℚ))] 2).isSome = true ∧
    resample_data [((0 : ℕ), (3 : ℚ)), ((1 : ℕ), (4 : ℚ))] 2 =
      some (resample [((0 : ℕ), (3 : ℚ)), ((1 : ℕ), (4 : ℚ))] 2) := by
  have h := aggregator_error_iff [((0 : ℕ), (3 : ℚ)), ((1 : ℕ), (4 : ℚ))] 2
  have hc : List.Chain' (· < ·)
      ([((0 : ℕ), (3 : ℚ)), ((1 : ℕ), (4 : ℚ))].map Prod.fst) := by
    simp [List.chain'_cons]
  exact ⟨h.1.mpr hc, h.2 hc⟩

end SalesAnalysis
